import Mathlib

/-!
# Verification of the kache-action accounting and reporting engine

Shallow embedding of the core logic of `src/save.js` (the post-step entry
point together with the utils module bundled in the same file): the cache
key derivation (`buildCacheKey`), the event-log parser and stats aggregator
(`parseEvents`), the formatting helpers (`formatBytes`, `formatMs`), the
markdown renderer (`buildStatsMarkdown`), the sticky PR comment logic
(`postOrUpdateComment`) and the post-step error handling of `run`.

Modelling conventions:
* JS strings are Lean `String`s; in Lean 4.14 a `String` wraps a `List Char`,
  and all string operations used here are defined structurally on `.data`
  so that every definition evaluates inside the kernel.
* JS numbers are modelled as `Nat` (all quantities involved — counters,
  byte sizes, milliseconds — are non-negative integers in the source).
  The floating-point expressions of the source are modelled bit-exactly
  by integer arithmetic: `flFromRat a b` is the IEEE-754 binary64 value
  of `a / b` (round to nearest, ties to even, at 53 significand bits) as
  an exact pair `(m, e)` with value `m * 2 ^ e`, `flMul100` is binary64
  multiplication by 100, and `jsToFixed1` is ECMA-262 `toFixed(1)` on
  that exact double value (nearest tenth, ties to the larger).  This
  reproduces e.g. `(1150/1000).toFixed(1) = "1.1"` and
  `((3/2000)*100).toFixed(1) = "0.1"`, where the binary64 quotient falls
  below the decimal tie.  (Normal range only: the program's counters,
  times and sizes are JS integers below 2^53, where int-to-double is
  exact and no intermediate is subnormal or infinite.)
  `Math.floor(Math.log(b) / Math.log(1024))` is the integer logarithm
  `log1024`, which agrees with the double computation on the whole
  relevant range.
* `crypto.createHash("sha256")` is modelled by a full implementation of
  FIPS 180-4 SHA-256 over byte lists; an incremental hasher whose digest
  is the SHA-256 of the concatenation of all `update` calls, exactly the
  node semantics.
* `Array.prototype.sort` (guaranteed stable since ES2019) is modelled by
  `List.insertionSort`, which is also stable; a stable sort's output is
  determined by the comparator and the input order, so the two agree.
* Fallible/effectful operations (file reads, the GitHub API, exceptions)
  are made explicit: absent files are `Option`, API traffic is a trace of
  `ApiCall`s, thrown exceptions are `Option String` error messages.
-/

/-! ## Generic string helpers (structural, kernel-evaluable) -/

/-- Lexicographic `≤` on character lists, comparing code points
(the JS default sort comparator compares UTF-16 code units; the two orders
agree on all Basic-Multilingual-Plane strings, in particular file paths). -/
def lexLe : List Char → List Char → Bool
  | [], _ => true
  | _ :: _, [] => false
  | x :: xs, y :: ys =>
    if x.toNat < y.toNat then true
    else if y.toNat < x.toNat then false
    else lexLe xs ys

/-- String order used by `Array.prototype.sort()` with no comparator. -/
def strLe (a b : String) : Prop := lexLe a.data b.data = true

instance : DecidableRel strLe := fun a b => by unfold strLe; infer_instance

/-- `needle` occurs at the start of `hay` (helper for `String.includes`). -/
def pfxMatch : List Char → List Char → Bool
  | _, [] => true
  | [], _ :: _ => false
  | x :: xs, y :: ys => x = y && pfxMatch xs ys

/-- `String.prototype.includes`: `needle` occurs somewhere in `hay`. -/
def containsSub (hay needle : List Char) : Bool :=
  match hay with
  | [] => needle.isEmpty
  | _ :: rest => pfxMatch hay needle || containsSub rest needle

/-- `String.prototype.slice(0, n)` (code-unit prefix). -/
def strTake (s : String) (n : Nat) : String := ⟨s.data.take n⟩

/-- `String.prototype.repeat`. -/
def strRepeat (s : String) (n : Nat) : String := ⟨(List.replicate n s.data).flatten⟩

/-- `Array.prototype.join("\n")`. -/
def joinNl (lines : List String) : String :=
  ⟨List.intercalate ['\n'] (lines.map String.data)⟩

/-- `String.prototype.split("\n")` (single-character separator case). -/
def splitNlAux : List Char → List Char → List (List Char)
  | [], cur => [cur.reverse]
  | c :: cs, cur =>
    if c = '\n' then cur.reverse :: splitNlAux cs [] else splitNlAux cs (c :: cur)

def splitNl (s : String) : List String := (splitNlAux s.data []).map String.mk

/-- ASCII whitespace recognised by `String.prototype.trim` (the JS set also
contains Unicode spaces, which never occur in the event log). -/
def isWsChar (c : Char) : Bool :=
  c = ' ' || c = '\t' || c = '\n' || c = '\r' || c = '\x0b' || c = '\x0c'

/-- `String.prototype.trim`. -/
def jsTrim (s : String) : String :=
  ⟨((s.data.dropWhile isWsChar).reverse.dropWhile isWsChar).reverse⟩

/-- Round the rational `N / D` to the nearest integer, ties to even:
the IEEE-754 significand rounding step. -/
def roundHalfEven (N D : Nat) : Nat :=
  let q := N / D
  let r := N % D
  if 2 * r < D then q
  else if 2 * r > D then q + 1
  else if q % 2 = 0 then q else q + 1

/-- Fuel-structured integer base-2 logarithm (kernel-evaluable). -/
def log2Fuel : Nat → Nat → Nat
  | 0, _ => 0
  | fuel + 1, n => if n < 2 then 0 else log2Fuel fuel (n / 2) + 1

def natLog2 (n : Nat) : Nat := log2Fuel n n

/-- The minimal `k` with `b ≤ a * 2 ^ k` (for `1 ≤ a < b`), fuel-structured. -/
def minShiftFuel : Nat → Nat → Nat → Nat
  | 0, _, _ => 0
  | fuel + 1, a, b => if b ≤ a then 0 else minShiftFuel fuel (2 * a) b + 1

def minShift (a b : Nat) : Nat := minShiftFuel b a b

/-- The IEEE-754 binary64 value nearest to `a / b` (round to nearest, ties
to even), as an exact pair `(m, e)` of value `m * 2 ^ e` with
`2 ^ 52 ≤ m < 2 ^ 53` (or `(0, 0)` for zero).  This is exactly the result
of the JS double division `a / b` in the normal range. -/
def flFromRat (a b : Nat) : Nat × Int :=
  if a = 0 then (0, 0)
  else
    let d : Int := if b ≤ a then (natLog2 (a / b) : Int) else -(minShift a b : Int)
    let scaled : Nat × Nat :=
      if 0 ≤ 52 - d then (a * 2 ^ (52 - d).toNat, b) else (a, b * 2 ^ (d - 52).toNat)
    let m := roundHalfEven scaled.1 scaled.2
    if m = 2 ^ 53 then (2 ^ 52, d - 51) else (m, d - 52)

/-- IEEE-754 binary64 multiplication of a double `(m, e)` by `100.0`. -/
def flMul100 : Nat × Int → Nat × Int
  | (m, e) =>
    if m = 0 then (0, 0)
    else
      let p := m * 100
      let s := natLog2 p - 52
      let m2 := roundHalfEven p (2 ^ s)
      if m2 = 2 ^ 53 then (2 ^ 52, e + s + 1) else (m2, e + s)

/-- ECMA-262 `Number.prototype.toFixed(1)` on the exact double value
`m * 2 ^ e`: the integer `n` nearest to ten times the value, ties to the
larger, printed with one decimal digit. -/
def jsToFixed1 : Nat × Int → String
  | (m, e) =>
    let n :=
      if 0 ≤ e then 10 * m * 2 ^ e.toNat
      else (20 * m + 2 ^ (-e).toNat) / 2 ^ ((-e).toNat + 1)
    toString (n / 10) ++ "." ++ toString (n % 10)

/-- `(a / b).toFixed(1)` with JS double division. -/
def jsDivToFixed1 (a b : Nat) : String := jsToFixed1 (flFromRat a b)

/-- `Math.floor(Math.log(n) / Math.log(1024))` for `n ≥ 1`: the integer
logarithm base 1024, fuel-structured so the kernel can evaluate it
(`fuel ≥ n` suffices since `n/1024 < n` for `n ≥ 1024`). -/
def log1024Aux : Nat → Nat → Nat
  | 0, _ => 0
  | fuel + 1, n => if n < 1024 then 0 else log1024Aux fuel (n / 1024) + 1

def log1024 (n : Nat) : Nat := log1024Aux n n

/-! ## SHA-256 (FIPS 180-4), over byte lists, all arithmetic mod 2^32 -/

def w32 : Nat := 4294967296

def rotr32 (x n : Nat) : Nat := x / 2 ^ n + x % 2 ^ n * 2 ^ (32 - n)

def shr32 (x n : Nat) : Nat := x / 2 ^ n

def not32 (x : Nat) : Nat := Nat.xor x (w32 - 1)

def bsig0 (x : Nat) : Nat := Nat.xor (Nat.xor (rotr32 x 2) (rotr32 x 13)) (rotr32 x 22)

def bsig1 (x : Nat) : Nat := Nat.xor (Nat.xor (rotr32 x 6) (rotr32 x 11)) (rotr32 x 25)

def ssig0 (x : Nat) : Nat := Nat.xor (Nat.xor (rotr32 x 7) (rotr32 x 18)) (shr32 x 3)

def ssig1 (x : Nat) : Nat := Nat.xor (Nat.xor (rotr32 x 17) (rotr32 x 19)) (shr32 x 10)

def ch32 (x y z : Nat) : Nat := Nat.xor (Nat.land x y) (Nat.land (not32 x) z)

def maj32 (x y z : Nat) : Nat := Nat.xor (Nat.xor (Nat.land x y) (Nat.land x z)) (Nat.land y z)

def sha256K : List Nat :=
  [1116352408, 1899447441, 3049323471, 3921009573, 961987163,
   1508970993, 2453635748, 2870763221, 3624381080, 310598401,
   607225278, 1426881987, 1925078388, 2162078206, 2614888103,
   3248222580, 3835390401, 4022224774, 264347078, 604807628,
   770255983, 1249150122, 1555081692, 1996064986, 2554220882,
   2821834349, 2952996808, 3210313671, 3336571891, 3584528711,
   113926993, 338241895, 666307205, 773529912, 1294757372,
   1396182291, 1695183700, 1986661051, 2177026350, 2456956037,
   2730485921, 2820302411, 3259730800, 3345764771, 3516065817,
   3600352804, 4094571909, 275423344, 430227734, 506948616,
   659060556, 883997877, 958139571, 1322822218, 1537002063,
   1747873779, 1955562222, 2024104815, 2227730452, 2361852424,
   2428436474, 2756734187, 3204031479, 3329325298]

def sha256H0 : List Nat :=
  [1779033703, 3144134277, 1013904242, 2773480762, 1359893119,
   2600822924, 528734635, 1541459225]

/-- `k`-byte big-endian encoding of `n`. -/
def toBEBytes : Nat → Nat → List Nat
  | 0, _ => []
  | k + 1, n => toBEBytes k (n / 256) ++ [n % 256]

/-- SHA-256 message padding: `0x80`, zeros to 56 mod 64, 8-byte bit length. -/
def sha256Pad (msg : List Nat) : List Nat :=
  let len := msg.length
  msg ++ [0x80] ++ List.replicate ((64 - (len + 9) % 64) % 64) 0 ++ toBEBytes 8 (len * 8)

/-- Group bytes into big-endian 32-bit words. -/
def bytesToWords : List Nat → List Nat
  | a :: b :: c :: d :: rest => (((a * 256 + b) * 256 + c) * 256 + d) :: bytesToWords rest
  | _ => []

/-- Extend a 16-word block to the 64-word message schedule. -/
def extendW : Nat → List Nat → List Nat
  | 0, ws => ws
  | fuel + 1, ws =>
    let i := ws.length
    let nw := (ssig1 (ws.getD (i - 2) 0) + ws.getD (i - 7) 0 +
               ssig0 (ws.getD (i - 15) 0) + ws.getD (i - 16) 0) % w32
    extendW fuel (ws ++ [nw])

/-- The 64 compression rounds, state carried as an 8-element list. -/
def sha256Rounds : List Nat → List Nat → List Nat → List Nat
  | w :: ws, k :: ks, [a, b, c, d, e, f, g, h] =>
    let t1 := (h + bsig1 e + ch32 e f g + k + w) % w32
    let t2 := (bsig0 a + maj32 a b c) % w32
    sha256Rounds ws ks [(t1 + t2) % w32, a, b, c, (d + t1) % w32, e, f, g]
  | _, _, st => st

/-- Compress one 16-word block into the running hash. -/
def sha256Compress (h block : List Nat) : List Nat :=
  let st := sha256Rounds (extendW 48 block) sha256K h
  List.zipWith (fun x y => (x + y) % w32) h st

/-- Fold the compression over all 16-word blocks. -/
def sha256Blocks : List Nat → List Nat → List Nat
  | h, w0 :: w1 :: w2 :: w3 :: w4 :: w5 :: w6 :: w7 ::
       w8 :: w9 :: w10 :: w11 :: w12 :: w13 :: w14 :: w15 :: rest =>
    sha256Blocks (sha256Compress h [w0, w1, w2, w3, w4, w5, w6, w7,
                                    w8, w9, w10, w11, w12, w13, w14, w15]) rest
  | h, _ => h

/-- SHA-256 digest (32 bytes) of a byte list. -/
def sha256 (msg : List Nat) : List Nat :=
  ((sha256Blocks sha256H0 (bytesToWords (sha256Pad msg))).map (toBEBytes 4)).flatten

/-- Lower-case hex digit. -/
def hexChar (n : Nat) : Char := if n < 10 then Char.ofNat (48 + n) else Char.ofNat (87 + n)

/-- Lower-case hex encoding of a byte list (`Hash.digest("hex")`). -/
def bytesToHex (bs : List Nat) : String :=
  ⟨(bs.map (fun b => [hexChar (b / 16), hexChar (b % 16)])).flatten⟩

/-- SHA-256 sanity anchor: the FIPS 180-4 test vector for `"abc"`. -/
theorem sha256_abc_vector :
    bytesToHex (sha256 [97, 98, 99]) =
      "ba7816bf8f01cfea414140de5dae2223b00361a396177a9cb410ff61f20015ad" := by decide

/-! ## Cache Key Deriver — `buildCacheKey` (save.js utils, lines 208–230) -/

structure CacheKeyResult where
  key : String
  restoreKeys : List String
deriving DecidableEq

/-- `buildCacheKey()` from the utils module.  The effectful inputs are made
explicit: `rawPrefix` is the `cache-key-prefix` action input (`""` when
unset, defaulted by `|| "kache"`), `rawVersion` is `process.env.KACHE_VERSION`
(`""` models unset, defaulted by `|| "unknown"`), `platform` is the
`os.platform()-os.arch()` string, `readFile` is the filesystem and
`lockfiles` the glob result.  The node incremental hasher digests the
concatenation of all its `update` calls, here accumulated by the fold. -/
def buildCacheKey (rawPrefix rawVersion platform : String)
    (readFile : String → List Nat) (lockfiles : List String) : CacheKeyResult :=
  let pfx := if rawPrefix = "" then "kache" else rawPrefix
  let kacheVersion := if rawVersion = "" then "unknown" else rawVersion
  let lockHash :=
    if lockfiles.length > 0 then
      strTake (bytesToHex (sha256
        ((List.insertionSort strLe lockfiles).foldl (fun acc f => acc ++ readFile f) []))) 16
    else "no-lockfile"
  { key := pfx ++ "-" ++ kacheVersion ++ "-" ++ platform ++ "-" ++ lockHash,
    restoreKeys := [pfx ++ "-" ++ kacheVersion ++ "-" ++ platform ++ "-"] }

/-! ## Event Log Parser and Stats Aggregator — `parseEvents` (lines 289–354) -/

/-- One decoded line of `events.jsonl`.  Fields that may be absent from the
JSON object are `Option`; the JS defaulting `e.f || d` is `Option.getD`
(for these value spaces JS falsiness collapses absent, `0` and `""` to the
default, exactly as `getD` does on `none`/`some 0`/`some ""`). -/
structure Event where
  result : String
  crate_name : String
  elapsed_ms : Option Nat
  size : Option Nat
  cache_key : Option String
deriving DecidableEq

/-- Entry of `missedCrates` as pushed for a `"miss"` event. -/
structure MissedCrate where
  name : String
  elapsed_ms : Nat
  size : Nat
  cache_key : String
deriving DecidableEq

/-- The JS sort comparator `(a, b) => b.elapsed_ms - a.elapsed_ms`:
`a` may precede `b` iff `b.elapsed_ms ≤ a.elapsed_ms`. -/
def missGe (a b : MissedCrate) : Prop := b.elapsed_ms ≤ a.elapsed_ms

instance : DecidableRel missGe := fun a b => by unfold missGe; infer_instance

/-- The stats record returned by `parseEvents`. -/
structure Stats where
  total : Nat
  localHits : Nat
  remoteHits : Nat
  hits : Nat
  misses : Nat
  errors : Nat
  hitRate : String
  missedCrates : List MissedCrate
deriving DecidableEq

/-- Accumulator of the `for (const e of events)` loop. -/
structure Agg where
  localHits : Nat
  remoteHits : Nat
  misses : Nat
  errors : Nat
  missedCrates : List MissedCrate
deriving DecidableEq

/-- The object pushed onto `missedCrates` for a miss event. -/
def missOf (e : Event) : MissedCrate :=
  { name := e.crate_name, elapsed_ms := e.elapsed_ms.getD 0,
    size := e.size.getD 0, cache_key := e.cache_key.getD "" }

/-- One iteration of the `switch (e.result)` loop body. -/
def stepEvent (acc : Agg) (e : Event) : Agg :=
  if e.result = "local_hit" then { acc with localHits := acc.localHits + 1 }
  else if e.result = "remote_hit" then { acc with remoteHits := acc.remoteHits + 1 }
  else if e.result = "miss" then
    { acc with misses := acc.misses + 1, missedCrates := acc.missedCrates ++ [missOf e] }
  else if e.result = "error" then { acc with errors := acc.errors + 1 }
  else acc

/-- The aggregation tail of `parseEvents` (from the counter loop to the
returned object).  `missedCrates.sort(...)` is the stable JS sort, modelled
by `insertionSort` with the same comparator. -/
def aggregate (events : List Event) : Stats :=
  let acc := events.foldl stepEvent ⟨0, 0, 0, 0, []⟩
  let total := acc.localHits + acc.remoteHits + acc.misses
  let hits := acc.localHits + acc.remoteHits
  let hitRate := if total > 0 then jsToFixed1 (flMul100 (flFromRat hits total)) else "0.0"
  { total := total, localHits := acc.localHits, remoteHits := acc.remoteHits,
    hits := hits, misses := acc.misses, errors := acc.errors, hitRate := hitRate,
    missedCrates := List.insertionSort missGe acc.missedCrates }

/-- The line loop of `parseEvents`: skip blank lines, decode the rest,
drop lines that fail to decode.  `decode` abstracts `JSON.parse` composed
with field extraction (its try/catch is the `Option`). -/
def lineEvents (decode : String → Option Event) (lines : List String) : List Event :=
  lines.filterMap fun l => if (jsTrim l).data = [] then none else decode l

/-- `parseEvents()`: `input` is the log file content (`none` when the file
does not exist).  Returns `none` for an absent file, blank content, or
zero decodable lines. -/
def parseEvents (decode : String → Option Event) (input : Option String) : Option Stats :=
  match input with
  | none => none
  | some raw =>
    let content := jsTrim raw
    if content.data = [] then none
    else
      let events := lineEvents decode (splitNl content)
      if events.length = 0 then none
      else some (aggregate events)

/-! ## Formatting helpers — `formatBytes`, `formatMs` (lines 356–366) -/

/-- `formatBytes`.  `Math.floor(Math.log(bytes)/Math.log(1024))` is the
integer logarithm `log1024` (they coincide on all positive doubles of
interest), and `units[i]` for `i` past the end of the array is JS
`undefined`, interpolated as the string `"undefined"`. -/
def formatBytes (bytes : Nat) : String :=
  if bytes = 0 then "0 B"
  else
    let units := ["B", "KB", "MB", "GB"]
    let i := log1024 bytes
    jsDivToFixed1 bytes (1024 ^ i) ++ " " ++ units.getD i "undefined"

/-- `formatMs`. -/
def formatMs (ms : Nat) : String :=
  if ms < 1000 then toString ms ++ "ms"
  else jsDivToFixed1 ms 1000 ++ "s"

/-! ## Report Renderer — `buildStatsMarkdown` (lines 369–424) -/

/-- The metric-table lines pushed first by `buildStatsMarkdown`. -/
def statsBaseLines (stats : Stats) (backend duration : String) : List String :=
  ["| Metric | Value |",
   "|--------|-------|",
   "| Hit rate | " ++ stats.hitRate ++ "% |",
   "| Local hits | " ++ toString stats.localHits ++ " |",
   "| Remote hits | " ++ toString stats.remoteHits ++ " |",
   "| Misses | " ++ toString stats.misses ++ " |"] ++
  (if stats.errors > 0 then ["| Errors | " ++ toString stats.errors ++ " |"] else []) ++
  ["| Total crates | " ++ toString stats.total ++ " |",
   "| Backend | " ++ backend ++ " |",
   "| Duration | " ++ duration ++ "s |"]

/-- One miss table row (the two branches of `buildStatsMarkdown` emit the
same row shape, with or without the truncated-key cell). -/
def missRowLine (hasKeys : Bool) (c : MissedCrate) : String :=
  if hasKeys then
    "| `" ++ c.name ++ "` | " ++ formatMs c.elapsed_ms ++ " | " ++
      formatBytes c.size ++ " | " ++
      (if c.cache_key != "" then "`" ++ strTake c.cache_key 12 ++ "` " else "") ++ "|"
  else
    "| `" ++ c.name ++ "` | " ++ formatMs c.elapsed_ms ++ " | " ++
      formatBytes c.size ++ " |"

/-- The `... N more` overflow row. -/
def moreRowLine (stats : Stats) (hasKeys : Bool) : String :=
  "| *... " ++ toString (stats.missedCrates.length - 10) ++ " more* " ++
    strRepeat "| " ((if hasKeys then 4 else 3) - 1) ++ "|"

/-- The `<details>` block pushed by `buildStatsMarkdown` when there is at
least one miss. -/
def missSectionLines (stats : Stats) : List String :=
  if stats.missedCrates.length > 0 then
    let top := stats.missedCrates.take 10
    let hasKeys := top.any fun c => c.cache_key != ""
    ["", "<details>",
     "<summary>Cache misses (" ++ toString stats.misses ++ " crates)</summary>", ""] ++
    (if hasKeys then
      ["| Crate | Compile time | Size | Key |",
       "|-------|-------------|------|-----|"]
     else
      ["| Crate | Compile time | Size |",
       "|-------|-------------|------|"]) ++
    top.map (missRowLine hasKeys) ++
    (if stats.missedCrates.length > 10 then [moreRowLine stats hasKeys] else []) ++
    ["", "</details>"]
  else []

/-- The `lines` array built by `buildStatsMarkdown` before the final
`join("\n")`. -/
def buildStatsLines (stats : Stats) (backend duration : String) : List String :=
  statsBaseLines stats backend duration ++ missSectionLines stats

/-- `buildStatsMarkdown` proper. -/
def buildStatsMarkdown (stats : Stats) (backend duration : String) : String :=
  joinNl (buildStatsLines stats backend duration)

/-! ## Sticky Reporter — `postOrUpdateComment` (lines 443–488) -/

def COMMENT_MARKER : String := "<!-- kache-action-comment -->"

structure IssueComment where
  id : Nat
  body : String
deriving DecidableEq

/-- Network traffic of `postOrUpdateComment`, in call order. -/
inductive ApiCall
  | listComments
  | updateComment (id : Nat) (body : String)
  | createComment (body : String)
deriving DecidableEq

/-- Outcome signalled by `postOrUpdateComment` (the no-PR early return logs
"Not a PR context, skipping comment" and performs no API call). -/
inductive PublishOutcome
  | skippedNoPr
  | updated (id : Nat)
  | created
deriving DecidableEq

/-- `c.body.includes(COMMENT_MARKER)`, the predicate of the `find` call. -/
def markedP (c : IssueComment) : Bool := containsSub c.body.data COMMENT_MARKER.data

/-- `postOrUpdateComment(body, token)`.  `prNumber` is the resolved
review-thread id (`none` outside a PR context), `comments` the first page
the list call would return, `newId` the id the API would assign to a
created comment.  Returns the outcome, the API calls made, and the
resulting comment list. -/
def postOrUpdateComment (prNumber : Option Nat) (comments : List IssueComment)
    (body : String) (newId : Nat) :
    PublishOutcome × List ApiCall × List IssueComment :=
  match prNumber with
  | none => (.skippedNoPr, [], comments)
  | some _ =>
    let markedBody := COMMENT_MARKER ++ "\n" ++ body
    match comments.find? markedP with
    | some c =>
      (.updated c.id, [.listComments, .updateComment c.id markedBody],
       comments.map fun d => if d.id = c.id then { d with body := markedBody } else d)
    | none =>
      (.created, [.listComments, .createComment markedBody],
       comments ++ [{ id := newId, body := markedBody }])

/-! ## Post-step error handling — `run` in save.js (lines 11–83) -/

inductive LogEntry
  | info (msg : String)
  | warning (msg : String)
deriving DecidableEq

/-- Result of the post step: the log it emitted, whether the job summary
write was reached, and whether the build was failed (`core.setFailed` is
never called in the post step). -/
structure PostOutcome where
  logs : List LogEntry
  summaryWritten : Bool
  buildFailed : Bool
deriving DecidableEq

/-- The inner `catch (err)` of the PR-comment block (lines 51–59):
an authorization failure (message containing "Resource not accessible")
is logged as `core.info`, anything else as `core.warning`. -/
def publishCatch (publishErr : Option String) : List LogEntry :=
  match publishErr with
  | none => []
  | some msg =>
    if containsSub msg.data "Resource not accessible".data then
      [.info "Skipping PR comment — token lacks pull-requests: write permission"]
    else
      [.warning ("Failed to post PR comment: " ++ msg)]

/-- The exception control flow of `run()`: `preErr` models an error thrown
before the comment block (manifest save, cache push/save, `parseEvents`),
`publishErr` one thrown by `postOrUpdateComment` (guarded by the inner
try/catch, so execution continues), `summaryErr` one thrown by the summary
write.  The outer catch logs a warning; no path fails the build. -/
def runPost (preErr : Option String) (statsPresent : Bool)
    (publishErr : Option String) (summaryErr : Option String) : PostOutcome :=
  match preErr with
  | some msg =>
    { logs := [.warning ("kache post step failed: " ++ msg)],
      summaryWritten := false, buildFailed := false }
  | none =>
    let publishLogs := if statsPresent then publishCatch publishErr else []
    match summaryErr with
    | some msg =>
      { logs := publishLogs ++ [.warning ("kache post step failed: " ++ msg)],
        summaryWritten := false, buildFailed := false }
    | none =>
      { logs := publishLogs, summaryWritten := true, buildFailed := false }

/-! ## Order lemmas for the string sort -/

theorem char_toNat_inj {a b : Char} (h : a.toNat = b.toNat) : a = b := by
  have := congrArg Char.ofNat h
  rwa [Char.ofNat_toNat, Char.ofNat_toNat] at this

theorem lexLe_total : ∀ as bs, lexLe as bs = true ∨ lexLe bs as = true
  | [], _ => Or.inl rfl
  | _ :: _, [] => Or.inr rfl
  | a :: as, b :: bs => by
    rcases Nat.lt_trichotomy a.toNat b.toNat with h | h | h
    · exact Or.inl (by simp [lexLe, h])
    · have := lexLe_total as bs
      simpa [lexLe, h, Nat.lt_irrefl] using this
    · exact Or.inr (by simp [lexLe, h])

theorem lexLe_trans : ∀ as bs cs, lexLe as bs = true → lexLe bs cs = true →
    lexLe as cs = true
  | [], _, _, _, _ => rfl
  | _ :: _, [], _, h, _ => by simp [lexLe] at h
  | _ :: _, _ :: _, [], _, h => by simp [lexLe] at h
  | a :: as, b :: bs, c :: cs, h1, h2 => by
    simp only [lexLe] at h1 h2 ⊢
    rcases Nat.lt_trichotomy a.toNat b.toNat with hab | hab | hab <;>
      rcases Nat.lt_trichotomy b.toNat c.toNat with hbc | hbc | hbc <;>
      simp_all [Nat.lt_irrefl] <;> first
        | exact absurd (Nat.lt_trans hab hbc) (by omega)
        | omega
        | exact lexLe_trans as bs cs h1 h2

theorem lexLe_antisymm : ∀ as bs, lexLe as bs = true → lexLe bs as = true → as = bs
  | [], [], _, _ => rfl
  | [], _ :: _, _, h => by simp [lexLe] at h
  | _ :: _, [], h, _ => by simp [lexLe] at h
  | a :: as, b :: bs, h1, h2 => by
    simp only [lexLe] at h1 h2
    rcases Nat.lt_trichotomy a.toNat b.toNat with hab | hab | hab
    · simp [hab, Nat.lt_irrefl, Nat.lt_asymm hab] at h2
    · have ha : a = b := char_toNat_inj hab
      simp only [hab, Nat.lt_irrefl, if_neg (Nat.lt_irrefl _)] at h1 h2
      exact ha ▸ congrArg (a :: ·) (lexLe_antisymm as bs h1 h2)
    · simp [hab, Nat.lt_irrefl, Nat.lt_asymm hab] at h1

theorem string_data_inj {a b : String} (h : a.data = b.data) : a = b :=
  congrArg String.mk h

instance : IsTotal String strLe := ⟨fun a b => by
  unfold strLe
  rcases lexLe_total a.data b.data with h | h
  · exact Or.inl h
  · exact Or.inr h⟩

instance : IsTrans String strLe :=
  ⟨fun a b c h1 h2 => lexLe_trans a.data b.data c.data h1 h2⟩

instance : IsAntisymm String strLe :=
  ⟨fun a b h1 h2 => string_data_inj (lexLe_antisymm a.data b.data h1 h2)⟩

/-- Sorting two lists that are permutations of one another (with the total,
transitive, antisymmetric string order) yields the same list. -/
theorem insertionSort_eq_of_perm {l₁ l₂ : List String} (h : l₁.Perm l₂) :
    List.insertionSort strLe l₁ = List.insertionSort strLe l₂ :=
  List.eq_of_perm_of_sorted
    ((List.perm_insertionSort _ _).trans (h.trans (List.perm_insertionSort _ _).symm))
    (List.sorted_insertionSort _ _) (List.sorted_insertionSort _ _)

theorem foldl_append_eq_flatten_map {α β : Type} (f : α → List β) :
    ∀ (l : List α) (acc : List β),
      l.foldl (fun a x => a ++ f x) acc = acc ++ (l.map f).flatten
  | [], acc => by simp
  | x :: l, acc => by
    simp [foldl_append_eq_flatten_map f l, List.append_assoc]

/-! ## Claim C1 -/

/-- **C1.** For every prefix, tool version, platform string and lockfile
set, `buildCacheKey` is invariant under the discovery order of the paths,
and its key is `prefix-version-platform-lockHash` where `lockHash` is the
first 16 hex characters of the SHA-256 digest of the files' contents
concatenated in sorted path order, or `no-lockfile` for the empty set. -/
theorem buildCacheKey_correct (rawPrefix rawVersion platform : String)
    (readFile : String → List Nat) (paths₁ paths₂ : List String)
    (h : paths₁.Perm paths₂) :
    buildCacheKey rawPrefix rawVersion platform readFile paths₁ =
      buildCacheKey rawPrefix rawVersion platform readFile paths₂ ∧
    (buildCacheKey rawPrefix rawVersion platform readFile paths₁).key =
      (if rawPrefix = "" then "kache" else rawPrefix) ++ "-" ++
      (if rawVersion = "" then "unknown" else rawVersion) ++ "-" ++ platform ++ "-" ++
      (if paths₁ = [] then "no-lockfile"
       else strTake (bytesToHex (sha256
         (((List.insertionSort strLe paths₁).map readFile).flatten))) 16) := by
  constructor
  · have hs := insertionSort_eq_of_perm h
    have hl := h.length_eq
    simp [buildCacheKey, hs, hl]
  · rcases paths₁ with - | ⟨p, ps⟩
    · simp [buildCacheKey]
    · simp [buildCacheKey, foldl_append_eq_flatten_map]

def fsW : String → List Nat := fun p => if p = "a" then [104, 105] else [106]

/-- Witness for C1 at a concrete two-file set, discovered in both orders. -/
theorem buildCacheKey_correct_witness :
    (["b", "a"] : List String).Perm ["a", "b"] ∧
    buildCacheKey "" "v1.2.0" "linux-x64" fsW ["b", "a"] =
      buildCacheKey "" "v1.2.0" "linux-x64" fsW ["a", "b"] :=
  ⟨by decide, (buildCacheKey_correct "" "v1.2.0" "linux-x64" fsW ["b", "a"] ["a", "b"]
    (by decide)).1⟩

/-! ## Aggregation lemmas -/

/-- The optional `missedCrates` entry contributed by one event. -/
def missOpt (e : Event) : Option MissedCrate :=
  if e.result = "miss" then some (missOf e) else none

/-- Characterisation of the counter loop of `parseEvents`. -/
theorem foldl_stepEvent : ∀ (evs : List Event) (acc : Agg),
    (evs.foldl stepEvent acc).localHits =
      acc.localHits + evs.countP (fun e => e.result == "local_hit") ∧
    (evs.foldl stepEvent acc).remoteHits =
      acc.remoteHits + evs.countP (fun e => e.result == "remote_hit") ∧
    (evs.foldl stepEvent acc).misses =
      acc.misses + evs.countP (fun e => e.result == "miss") ∧
    (evs.foldl stepEvent acc).errors =
      acc.errors + evs.countP (fun e => e.result == "error") ∧
    (evs.foldl stepEvent acc).missedCrates = acc.missedCrates ++ evs.filterMap missOpt
  | [], acc => by simp
  | e :: t, acc => by
    obtain ⟨i1, i2, i3, i4, i5⟩ := foldl_stepEvent t (stepEvent acc e)
    simp only [List.foldl_cons, List.countP_cons, List.filterMap_cons]
    by_cases h1 : e.result = "local_hit"
    · simp [stepEvent, missOpt, h1] at i1 i2 i3 i4 i5
      refine ⟨?_, ?_, ?_, ?_, ?_⟩ <;>
        simp [stepEvent, missOpt, h1, i1, i2, i3, i4, i5] <;> omega
    · by_cases h2 : e.result = "remote_hit"
      · simp [stepEvent, missOpt, h1, h2] at i1 i2 i3 i4 i5
        refine ⟨?_, ?_, ?_, ?_, ?_⟩ <;>
          simp [stepEvent, missOpt, h1, h2, i1, i2, i3, i4, i5] <;> omega
      · by_cases h3 : e.result = "miss"
        · simp [stepEvent, missOpt, h1, h2, h3] at i1 i2 i3 i4 i5
          refine ⟨?_, ?_, ?_, ?_, ?_⟩ <;>
            simp [stepEvent, missOpt, h1, h2, h3, i1, i2, i3, i4, i5] <;> omega
        · by_cases h4 : e.result = "error"
          · simp [stepEvent, missOpt, h1, h2, h3, h4] at i1 i2 i3 i4 i5
            refine ⟨?_, ?_, ?_, ?_, ?_⟩ <;>
              simp [stepEvent, missOpt, h1, h2, h3, h4, i1, i2, i3, i4, i5] <;> omega
          · simp [stepEvent, missOpt, h1, h2, h3, h4] at i1 i2 i3 i4 i5
            refine ⟨?_, ?_, ?_, ?_, ?_⟩ <;>
              simp [stepEvent, missOpt, h1, h2, h3, h4, i1, i2, i3, i4, i5]

/-! ## Claim C2 -/

/-- **C2.** The aggregated stats satisfy
`total = localHits + remoteHits + misses` exactly (errors are counted
separately and excluded from the denominator: each counter counts exactly
the records with the corresponding `result`), `hits = localHits +
remoteHits ≤ total`, and `hitRate` is `hits/total*100` rendered with one
decimal, being `"0.0"` when `total = 0` — in particular for `[]`. -/
theorem aggregate_invariants (evs : List Event) :
    (aggregate evs).total =
      (aggregate evs).localHits + (aggregate evs).remoteHits + (aggregate evs).misses ∧
    (aggregate evs).hits = (aggregate evs).localHits + (aggregate evs).remoteHits ∧
    (aggregate evs).hits ≤ (aggregate evs).total ∧
    (aggregate evs).localHits = evs.countP (fun e => e.result == "local_hit") ∧
    (aggregate evs).remoteHits = evs.countP (fun e => e.result == "remote_hit") ∧
    (aggregate evs).misses = evs.countP (fun e => e.result == "miss") ∧
    (aggregate evs).errors = evs.countP (fun e => e.result == "error") ∧
    (aggregate evs).hitRate =
      (if 0 < (aggregate evs).total then
        jsToFixed1 (flMul100 (flFromRat (aggregate evs).hits (aggregate evs).total))
      else "0.0") ∧
    (aggregate ([] : List Event)).total = 0 ∧
    (aggregate ([] : List Event)).hitRate = "0.0" := by
  obtain ⟨i1, i2, i3, i4, -⟩ := foldl_stepEvent evs ⟨0, 0, 0, 0, []⟩
  refine ⟨?_, ?_, ?_, ?_, ?_, ?_, ?_, ?_, by simp [aggregate], by simp [aggregate]⟩ <;>
    simp [aggregate, i1, i2, i3, i4] <;> omega

/-! ## Stability of the miss sort -/

instance : IsTotal MissedCrate missGe :=
  ⟨fun a b => Nat.le_total b.elapsed_ms a.elapsed_ms⟩

instance : IsTrans MissedCrate missGe :=
  ⟨fun _ _ _ h1 h2 => Nat.le_trans h2 h1⟩

theorem filter_orderedInsert_pos (a : MissedCrate) (t : Nat) (ht : a.elapsed_ms = t) :
    ∀ s : List MissedCrate,
      (List.orderedInsert missGe a s).filter (fun c => c.elapsed_ms == t) =
        a :: s.filter (fun c => c.elapsed_ms == t)
  | [] => by simp [List.orderedInsert, ht]
  | b :: bs => by
    simp only [List.orderedInsert]
    by_cases h : missGe a b
    · simp [h, ht]
    · have hb : ¬ b.elapsed_ms = t := by
        unfold missGe at h
        omega
      simp [h, hb, filter_orderedInsert_pos a t ht bs]

theorem filter_orderedInsert_neg (a : MissedCrate) (t : Nat) (ht : ¬ a.elapsed_ms = t) :
    ∀ s : List MissedCrate,
      (List.orderedInsert missGe a s).filter (fun c => c.elapsed_ms == t) =
        s.filter (fun c => c.elapsed_ms == t)
  | [] => by simp [List.orderedInsert, ht]
  | b :: bs => by
    simp only [List.orderedInsert]
    by_cases h : missGe a b
    · simp [h, ht]
    · by_cases hb : b.elapsed_ms = t <;>
        simp [h, hb, filter_orderedInsert_neg a t ht bs]

/-- The sort of `missedCrates` is stable: entries of any fixed elapsed time
keep their original relative order. -/
theorem filter_insertionSort (t : Nat) :
    ∀ l : List MissedCrate,
      (List.insertionSort missGe l).filter (fun c => c.elapsed_ms == t) =
        l.filter (fun c => c.elapsed_ms == t)
  | [] => rfl
  | a :: l => by
    simp only [List.insertionSort]
    by_cases ha : a.elapsed_ms = t
    · rw [filter_orderedInsert_pos a t ha, filter_insertionSort t l]
      simp [ha]
    · rw [filter_orderedInsert_neg a t ha, filter_insertionSort t l]
      simp [ha]

/-- `missedCrates` of the aggregation is the sorted miss list. -/
theorem aggregate_missedCrates (evs : List Event) :
    (aggregate evs).missedCrates = List.insertionSort missGe (evs.filterMap missOpt) := by
  obtain ⟨-, -, -, -, i5⟩ := foldl_stepEvent evs ⟨0, 0, 0, 0, []⟩
  simp [aggregate, i5]

/-! ## Claim C5 -/

/-- **C5.** `missedCrates` contains exactly the miss records (it is a
permutation of the misses in encounter order), is sorted non-increasingly
by `elapsed_ms`, and the sort is stable: for every elapsed time `t`, the
entries with that time appear in their original encounter order. -/
theorem topMisses_sorted_stable (evs : List Event) :
    ((aggregate evs).missedCrates).Perm (evs.filterMap missOpt) ∧
    ((aggregate evs).missedCrates).Pairwise missGe ∧
    ∀ t : Nat,
      ((aggregate evs).missedCrates).filter (fun c => c.elapsed_ms == t) =
        (evs.filterMap missOpt).filter (fun c => c.elapsed_ms == t) := by
  rw [aggregate_missedCrates]
  exact ⟨List.perm_insertionSort _ _, List.sorted_insertionSort _ _,
    fun t => filter_insertionSort t _⟩

/-! ## Claim C10 -/

/-- **C10.** A miss event whose `elapsed_ms`, `size` and `cache_key` fields
are absent is recorded with elapsed time `0`, size `0` and the empty key
(so every entry carries defined values), and in the sorted `missedCrates`
list any zero-elapsed entry is followed only by zero-elapsed entries,
i.e. such records sort after all misses with positive elapsed time. -/
theorem miss_defaults (evs : List Event) (e : Event) (he : e ∈ evs)
    (hm : e.result = "miss") (h1 : e.elapsed_ms = none) (h2 : e.size = none)
    (h3 : e.cache_key = none) :
    ({ name := e.crate_name, elapsed_ms := 0, size := 0, cache_key := "" } : MissedCrate) ∈
      (aggregate evs).missedCrates ∧
    ((aggregate evs).missedCrates).Pairwise
      (fun a b => a.elapsed_ms = 0 → b.elapsed_ms = 0) := by
  rw [aggregate_missedCrates]
  constructor
  · rw [List.mem_insertionSort, List.mem_filterMap]
    exact ⟨e, he, by simp [missOpt, missOf, hm, h1, h2, h3]⟩
  · exact (List.sorted_insertionSort missGe _).imp fun hab ha => by
      unfold missGe at hab
      omega

/-- Witness for C10: a single miss event with all optional fields absent. -/
theorem miss_defaults_witness :
    ({ name := "foo", elapsed_ms := 0, size := 0, cache_key := "" } : MissedCrate) ∈
      (aggregate [{ result := "miss", crate_name := "foo", elapsed_ms := none,
                    size := none, cache_key := none }]).missedCrates :=
  (miss_defaults
    [{ result := "miss", crate_name := "foo", elapsed_ms := none,
       size := none, cache_key := none }]
    { result := "miss", crate_name := "foo", elapsed_ms := none,
      size := none, cache_key := none }
    (by decide) rfl rfl rfl rfl).1

/-! ## Claim C3 -/

/-- **C3.** The line loop skips blank lines and undecodable lines without
aborting, preserving the encounter order of the decodable records; absent
input, empty input, and input with zero decodable records all yield `none`
("no run data"); and one valid record plus one blank line plus one garbled
line yield exactly one record. -/
theorem parseEvents_tolerant (decode : String → Option Event) :
    parseEvents decode none = none ∧
    parseEvents decode (some "") = none ∧
    (∀ raw, lineEvents decode (splitNl (jsTrim raw)) = [] →
      parseEvents decode (some raw) = none) ∧
    (∀ l₁ l₂ : List String,
      lineEvents decode (l₁ ++ l₂) = lineEvents decode l₁ ++ lineEvents decode l₂) ∧
    (∀ (l₁ l₂ : List String) (j : String),
      (jsTrim j).data = [] ∨ decode j = none →
      lineEvents decode (l₁ ++ j :: l₂) = lineEvents decode (l₁ ++ l₂)) ∧
    (∀ (v g : String) (e : Event), decode v = some e → (jsTrim v).data ≠ [] →
      decode g = none → lineEvents decode [v, "", g] = [e]) := by
  have happ : ∀ l₁ l₂ : List String,
      lineEvents decode (l₁ ++ l₂) = lineEvents decode l₁ ++ lineEvents decode l₂ :=
    fun l₁ l₂ => List.filterMap_append ..
  have hskip : ∀ j : String, (jsTrim j).data = [] ∨ decode j = none →
      lineEvents decode [j] = [] := by
    intro j hj
    rcases hj with hj | hj <;> simp [lineEvents, hj]
  refine ⟨rfl, by simp [parseEvents, jsTrim], ?_, happ, ?_, ?_⟩
  · intro raw h
    by_cases hc : (jsTrim raw).data = []
    · simp [parseEvents, hc]
    · simp [parseEvents, hc, h]
  · intro l₁ l₂ j hj
    have : l₁ ++ j :: l₂ = l₁ ++ [j] ++ l₂ := by simp
    rw [this, happ, happ, hskip j hj, happ]
    simp
  · intro v g e hv hvne hg
    have : ([v, "", g] : List String) = [v] ++ [""] ++ [g] := rfl
    rw [this, happ, happ, hskip "" (Or.inl (by simp [jsTrim])),
      hskip g (Or.inr hg)]
    simp [lineEvents, hvne, hv]

def decodeW : String → Option Event := fun s =>
  if s = "REC" then
    some { result := "miss", crate_name := "m", elapsed_ms := some 5,
           size := some 1, cache_key := none }
  else none

/-- Witness for C3: a concrete decoder on the valid/blank/garbled scenario. -/
theorem parseEvents_tolerant_witness :
    lineEvents decodeW ["REC", "", "garbage"] =
      [{ result := "miss", crate_name := "m", elapsed_ms := some 5,
         size := some 1, cache_key := none }] :=
  (parseEvents_tolerant decodeW).2.2.2.2.2 "REC" "garbage" _ (by decide) (by decide)
    (by decide)

/-! ## Marker lemmas for the sticky comment -/

theorem pfxMatch_append_self : ∀ xs ys : List Char, pfxMatch (xs ++ ys) xs = true
  | [], _ => by simp [pfxMatch]
  | x :: xs, ys => by simp [pfxMatch, pfxMatch_append_self xs ys]

theorem containsSub_nil_needle : ∀ hay : List Char, containsSub hay [] = true
  | [] => rfl
  | _ :: rest => by simp [containsSub, pfxMatch]

theorem containsSub_prefixed (m rest : List Char) : containsSub (m ++ rest) m = true := by
  cases m with
  | nil => exact containsSub_nil_needle rest
  | cons c cs =>
    simp only [containsSub, List.cons_append, Bool.or_eq_true]
    exact Or.inl (by simpa using pfxMatch_append_self (c :: cs) rest)

theorem markedP_marked (i : Nat) (body : String) :
    markedP { id := i, body := COMMENT_MARKER ++ "\n" ++ body } = true := by
  unfold markedP
  simp only [String.data_append, List.append_assoc]
  exact containsSub_prefixed _ _

/-- Updating the body of the unique comment with the found id preserves the
number of marker-carrying comments. -/
theorem countP_update_marked (body : String) :
    ∀ (comments : List IssueComment) (c : IssueComment),
      comments.find? markedP = some c → (comments.map (·.id)).Nodup →
      (comments.map fun d =>
        if d.id = c.id then { d with body := COMMENT_MARKER ++ "\n" ++ body } else d).countP
          markedP = comments.countP markedP
  | [], c, h, _ => by simp at h
  | d :: rest, c, h, hnd => by
    rw [List.map_cons, List.nodup_cons] at hnd
    obtain ⟨hdmem, hndrest⟩ := hnd
    by_cases hd : markedP d
    · rw [List.find?_cons_of_pos _ hd] at h
      injection h with h
      subst h
      have hrest : (rest.map fun d' =>
          if d'.id = d.id then { d' with body := COMMENT_MARKER ++ "\n" ++ body } else d') =
          rest := by
        rw [List.map_congr_left (g := id), List.map_id]
        intro x hx
        have : x.id ≠ d.id := fun heq => hdmem (heq ▸ List.mem_map_of_mem (·.id) hx)
        simp [this]
      simp [hrest, List.countP_cons, hd, markedP_marked]
    · rw [List.find?_cons_of_neg _ hd] at h
      have hcmem : c ∈ rest := List.mem_of_find?_eq_some h
      have hdid : ¬ d.id = c.id :=
        fun heq => hdmem (heq ▸ List.mem_map_of_mem (·.id) hcmem)
      simp [List.countP_cons, hd, hdid, countP_update_marked body rest c h hndrest]

/-! ## Claim C4 -/

/-- **C4 (amendment of the marker-count clause under unique comment ids).**
With no review-thread id, `postOrUpdateComment` is a no-op: no API call,
outcome `skippedNoPr`, comments untouched.  When some comment carries the
marker, the first such comment's body is overwritten (one update call,
no create call), the number of comments is unchanged, and (for unique
comment ids) the number of marker-carrying comments is unchanged — so at
most one carries the marker whenever that held before.  When no comment
carries the marker, exactly one comment whose body is the marker followed
by the given body is created, and it is the only marker-carrying one. -/
theorem postOrUpdateComment_correct (comments : List IssueComment) (body : String)
    (newId : Nat) :
    postOrUpdateComment none comments body newId = (.skippedNoPr, [], comments) ∧
    (∀ (pr : Nat) (c : IssueComment), comments.find? markedP = some c →
      (postOrUpdateComment (some pr) comments body newId).1 = .updated c.id ∧
      (postOrUpdateComment (some pr) comments body newId).2.1 =
        [.listComments, .updateComment c.id (COMMENT_MARKER ++ "\n" ++ body)] ∧
      (postOrUpdateComment (some pr) comments body newId).2.2.length = comments.length ∧
      ((comments.map (·.id)).Nodup →
        (postOrUpdateComment (some pr) comments body newId).2.2.countP markedP =
          comments.countP markedP)) ∧
    (∀ pr : Nat, comments.find? markedP = none →
      (postOrUpdateComment (some pr) comments body newId).1 = .created ∧
      (postOrUpdateComment (some pr) comments body newId).2.1 =
        [.listComments, .createComment (COMMENT_MARKER ++ "\n" ++ body)] ∧
      (postOrUpdateComment (some pr) comments body newId).2.2 =
        comments ++ [{ id := newId, body := COMMENT_MARKER ++ "\n" ++ body }] ∧
      (postOrUpdateComment (some pr) comments body newId).2.2.countP markedP = 1) := by
  refine ⟨rfl, ?_, ?_⟩
  · intro pr c h
    refine ⟨by simp [postOrUpdateComment, h], by simp [postOrUpdateComment, h],
      by simp [postOrUpdateComment, h], fun hnd => ?_⟩
    have := countP_update_marked body comments c h hnd
    simpa [postOrUpdateComment, h] using this
  · intro pr h
    refine ⟨by simp [postOrUpdateComment, h], by simp [postOrUpdateComment, h],
      by simp [postOrUpdateComment, h], ?_⟩
    simp only [postOrUpdateComment, h]
    rw [List.countP_append, List.countP_eq_zero.mpr, Nat.zero_add]
    · simp [List.countP_cons, markedP_marked]
    · intro a ha
      exact List.find?_eq_none.mp h a ha

/-- Witness for C4: an existing sticky comment is updated in place, a
marker-free thread gets exactly one new comment. -/
theorem postOrUpdateComment_correct_witness :
    (postOrUpdateComment (some 7)
      [{ id := 1, body := "hello" },
       { id := 2, body := "<!-- kache-action-comment -->\nold stats" }] "new stats" 99).1 =
      .updated 2 ∧
    (postOrUpdateComment (some 7)
      [{ id := 1, body := "hello" },
       { id := 2, body := "<!-- kache-action-comment -->\nold stats" }] "new stats" 99).2.2.countP
        markedP =
      [({ id := 1, body := "hello" } : IssueComment),
       { id := 2, body := "<!-- kache-action-comment -->\nold stats" }].countP markedP :=
  ⟨((postOrUpdateComment_correct
      [{ id := 1, body := "hello" },
       { id := 2, body := "<!-- kache-action-comment -->\nold stats" }] "new stats" 99).2.1 7
      { id := 2, body := "<!-- kache-action-comment -->\nold stats" } (by decide)).1,
   ((postOrUpdateComment_correct
      [{ id := 1, body := "hello" },
       { id := 2, body := "<!-- kache-action-comment -->\nold stats" }] "new stats" 99).2.1 7
      { id := 2, body := "<!-- kache-action-comment -->\nold stats" } (by decide)).2.2.2
      (by decide)⟩

/-! ## Integer logarithm characterisation -/

theorem log1024Aux_spec : ∀ (fuel n : Nat), 0 < n → n ≤ fuel →
    1024 ^ log1024Aux fuel n ≤ n ∧ n < 1024 ^ (log1024Aux fuel n + 1)
  | 0, n, h0, hle => by omega
  | fuel + 1, n, h0, hle => by
    simp only [log1024Aux]
    by_cases h : n < 1024
    · simp only [h, if_true, reduceIte, pow_zero, pow_one]
      omega
    · simp only [h, if_false, reduceIte]
      have hm0 : 0 < n / 1024 := Nat.div_pos (Nat.le_of_not_lt h) (by norm_num)
      have hmfuel : n / 1024 ≤ fuel := by
        have := Nat.div_lt_self h0 (show 1 < 1024 by norm_num)
        omega
      obtain ⟨ih1, ih2⟩ := log1024Aux_spec fuel (n / 1024) hm0 hmfuel
      constructor
      · calc 1024 ^ (log1024Aux fuel (n / 1024) + 1)
            = 1024 ^ log1024Aux fuel (n / 1024) * 1024 := pow_succ ..
          _ ≤ n / 1024 * 1024 := Nat.mul_le_mul_right _ ih1
          _ ≤ n := Nat.div_mul_le_self n 1024
      · have h1 : n < (n / 1024 + 1) * 1024 := by
          have hdm := Nat.div_add_mod n 1024
          have hmod : n % 1024 < 1024 := Nat.mod_lt _ (by norm_num)
          omega
        calc n < (n / 1024 + 1) * 1024 := h1
          _ ≤ 1024 ^ (log1024Aux fuel (n / 1024) + 1) * 1024 :=
              Nat.mul_le_mul_right _ (by omega)
          _ = 1024 ^ (log1024Aux fuel (n / 1024) + 1 + 1) := (pow_succ ..).symm

/-- `log1024 n` is the largest `k` with `1024 ^ k ≤ n` (for `n ≥ 1`). -/
theorem log1024_spec (n : Nat) (h : 0 < n) :
    1024 ^ log1024 n ≤ n ∧ n < 1024 ^ (log1024 n + 1) :=
  log1024Aux_spec n n h (Nat.le_refl n)

/-- `jsToFixed1` always prints one decimal digit. -/
theorem jsToFixed1_shape (me : Nat × Int) :
    ∃ k : Nat, jsToFixed1 me = toString (k / 10) ++ "." ++ toString (k % 10) := by
  obtain ⟨m, e⟩ := me
  exact ⟨_, rfl⟩

/-! ## Claim C7 -/

/-- **C7 (amended: the base-1024 unit selection holds for positive values
below 1024⁴; at 1024⁴ and above the unit index runs past the table and the
unit renders as the literal `undefined`).**  `formatMs` renders values
under 1000 as `<n>ms` and everything else as a one-decimal `<n.n>s`;
`formatBytes` renders 0 as exactly `0 B`, and any positive value below
1024⁴ with the largest unit of `B, KB, MB, GB` whose scaled value is at
least 1 (`1024 ^ i ≤ bytes < 1024 ^ (i+1)` with `i < 4`), one-decimal
precision; `formatBytes 1536 = "1.5 KB"`, `formatMs 850 = "850ms"`,
`formatMs 2500 = "2.5s"`. -/
theorem format_correct (ms bytes : Nat) (hms : 1000 ≤ ms) (hb : 0 < bytes)
    (hb4 : bytes < 1024 ^ 4) :
    (∀ m : Nat, m < 1000 → formatMs m = toString m ++ "ms") ∧
    formatMs ms = jsDivToFixed1 ms 1000 ++ "s" ∧
    (∃ k : Nat, formatMs ms = toString (k / 10) ++ "." ++ toString (k % 10) ++ "s") ∧
    formatBytes 0 = "0 B" ∧
    formatBytes bytes =
      jsDivToFixed1 bytes (1024 ^ log1024 bytes) ++ " " ++
        ["B", "KB", "MB", "GB"].getD (log1024 bytes) "undefined" ∧
    1024 ^ log1024 bytes ≤ bytes ∧ bytes < 1024 ^ (log1024 bytes + 1) ∧
    log1024 bytes < 4 ∧
    formatBytes 1536 = "1.5 KB" ∧ formatMs 850 = "850ms" ∧ formatMs 2500 = "2.5s" := by
  obtain ⟨hlo, hhi⟩ := log1024_spec bytes hb
  have hlt4 : log1024 bytes < 4 := by
    by_contra hge
    have : 1024 ^ 4 ≤ 1024 ^ log1024 bytes :=
      Nat.pow_le_pow_right (by norm_num) (by omega)
    omega
  refine ⟨?_, ?_, ?_, rfl, ?_, hlo, hhi, hlt4, by decide, by decide, by decide⟩
  · intro m hm
    simp [formatMs, hm]
  · simp [formatMs, Nat.not_lt.mpr hms]
  · obtain ⟨k, hk⟩ := jsToFixed1_shape (flFromRat ms 1000)
    refine ⟨k, ?_⟩
    simp [formatMs, Nat.not_lt.mpr hms, jsDivToFixed1, hk, String.append_assoc]
  · simp [formatBytes, Nat.pos_iff_ne_zero.mp hb]

/-- Witness for C7 at `bytes = 1536`, `ms = 2500`. -/
theorem format_correct_witness :
    formatBytes 1536 = "1.5 KB" ∧ formatMs 2500 = "2.5s" :=
  ⟨(format_correct 2500 1536 (by decide) (by decide) (by decide)).2.2.2.2.2.2.2.2.1,
   (format_correct 2500 1536 (by decide) (by decide) (by decide)).2.2.2.2.2.2.2.2.2.2⟩

/-- **C7 counterexample.** At `bytes = 1024⁴` the unit index is 4, past
the end of the `["B","KB","MB","GB"]` table: the code renders
`"1.0 undefined"`, not the `"1024.0 GB"` that "the largest unit whose
scaled value is at least 1" (GB) would give, so the unrestricted claim is
false. -/
theorem formatBytes_tb_counterexample :
    formatBytes 1099511627776 = "1.0 undefined" ∧
    formatBytes 1099511627776 ≠ "1024.0 GB" := by
  constructor <;> decide

/-! ## Render observables for the details section -/

theorem pfxMatch_append_left : ∀ (p xs : List Char), p.length ≤ xs.length →
    ∀ ys, pfxMatch (xs ++ ys) p = pfxMatch xs p
  | [], xs, _, ys => by cases xs <;> simp [pfxMatch]
  | c :: ps, [], h, ys => by simp at h
  | c :: ps, a :: as, h, ys => by
    simp only [List.cons_append, pfxMatch, List.append_eq]
    rw [pfxMatch_append_left ps as (by simpa using h) ys]

def dataRowPat : List Char := ("| `" : String).data

def moreRowPat : List Char := ("| *" : String).data

def angleHeadPat : List Char := ("<" : String).data

/-- A miss data row: a line starting with a pipe, a space, a backtick. -/
def dataRowP (l : String) : Bool := pfxMatch l.data dataRowPat

/-- The overflow row: a line starting with pipe, space, asterisk. -/
def moreRowP (l : String) : Bool := pfxMatch l.data moreRowPat

/-- Number of `|` cell separators in a rendered table row: a row with `k`
columns carries `k + 1` pipes. -/
def pipeCount (s : String) : Nat := s.data.countP (fun c => c = '|')

theorem str_ne_of_discr (p : String → Bool) {s t : String}
    (hs : p s = true) (ht : p t = false) : ¬ s = t :=
  fun h => by rw [h, ht] at hs; exact Bool.false_ne_true hs

/-- A leading literal of at least the pattern's length decides the match. -/
theorem pfxHead (lit rest : String) (pat : List Char) (h : pat.length ≤ lit.data.length) :
    pfxMatch (lit ++ rest).data pat = pfxMatch lit.data pat := by
  rw [String.data_append]
  exact pfxMatch_append_left pat lit.data h rest.data

theorem dataRowP_missRow (hk : Bool) (c : MissedCrate) : dataRowP (missRowLine hk c) = true := by
  unfold dataRowP missRowLine
  cases hk
  · rw [if_neg Bool.false_ne_true]
    simp only [String.append_assoc]
    rw [pfxHead "| `" _ dataRowPat (by decide)]
    decide
  · rw [if_pos rfl]
    simp only [String.append_assoc]
    rw [pfxHead "| `" _ dataRowPat (by decide)]
    decide

theorem moreRowP_missRow (hk : Bool) (c : MissedCrate) : moreRowP (missRowLine hk c) = false := by
  unfold moreRowP missRowLine
  cases hk
  · rw [if_neg Bool.false_ne_true]
    simp only [String.append_assoc]
    rw [pfxHead "| `" _ moreRowPat (by decide)]
    decide
  · rw [if_pos rfl]
    simp only [String.append_assoc]
    rw [pfxHead "| `" _ moreRowPat (by decide)]
    decide

theorem dataRowP_moreRow (stats : Stats) (hk : Bool) :
    dataRowP (moreRowLine stats hk) = false := by
  unfold dataRowP moreRowLine
  simp only [String.append_assoc]
  rw [pfxHead "| *... " _ dataRowPat (by decide)]
  decide

theorem moreRowP_moreRow (stats : Stats) (hk : Bool) :
    moreRowP (moreRowLine stats hk) = true := by
  unfold moreRowP moreRowLine
  simp only [String.append_assoc]
  rw [pfxHead "| *... " _ moreRowPat (by decide)]
  decide

theorem dataRowP_summary (n : Nat) :
    dataRowP ("<summary>Cache misses (" ++ toString n ++ " crates)</summary>") = false := by
  unfold dataRowP
  simp only [String.append_assoc]
  rw [pfxHead "<summary>Cache misses (" _ dataRowPat (by decide)]
  decide

theorem moreRowP_summary (n : Nat) :
    moreRowP ("<summary>Cache misses (" ++ toString n ++ " crates)</summary>") = false := by
  unfold moreRowP
  simp only [String.append_assoc]
  rw [pfxHead "<summary>Cache misses (" _ moreRowPat (by decide)]
  decide

theorem angleHead_summary (n : Nat) :
    pfxMatch ("<summary>Cache misses (" ++ toString n ++ " crates)</summary>").data
      angleHeadPat = true := by
  simp only [String.append_assoc]
  rw [pfxHead "<summary>Cache misses (" _ angleHeadPat (by decide)]
  decide

theorem pipeCount_append (s t : String) : pipeCount (s ++ t) = pipeCount s + pipeCount t := by
  simp [pipeCount, String.data_append, List.countP_append]

theorem digitChar_ne_pipe (n : Nat) : Nat.digitChar n ≠ '|' := by
  by_cases h : n < 16
  · interval_cases n <;> decide
  · unfold Nat.digitChar
    repeat rw [if_neg (by omega)]
    decide

theorem toDigitsCore_ne_pipe : ∀ (fuel n : Nat) (ds : List Char),
    (∀ c ∈ ds, c ≠ '|') → ∀ c ∈ Nat.toDigitsCore 10 fuel n ds, c ≠ '|'
  | 0, n, ds, h => by simpa [Nat.toDigitsCore] using h
  | fuel + 1, n, ds, h => by
    simp only [Nat.toDigitsCore]
    by_cases h0 : n / 10 = 0
    · simp only [h0, if_true, reduceIte]
      intro c hc
      rcases List.mem_cons.mp hc with hc | hc
      · exact hc ▸ digitChar_ne_pipe _
      · exact h c hc
    · simp only [h0, if_false, reduceIte]
      refine toDigitsCore_ne_pipe fuel (n / 10) _ ?_
      intro c hc
      rcases List.mem_cons.mp hc with hc | hc
      · exact hc ▸ digitChar_ne_pipe _
      · exact h c hc

theorem pipeCount_toString (n : Nat) : pipeCount (toString n) = 0 := by
  apply List.countP_eq_zero.mpr
  intro c hc
  have hc' : c ∈ Nat.toDigitsCore 10 (n + 1) n [] := hc
  have := toDigitsCore_ne_pipe (n + 1) n [] (by simp) c hc'
  simp [this]

theorem pipeCount_strRepeat (k : Nat) : pipeCount (strRepeat "| " k) = k := by
  induction k with
  | zero => rfl
  | succ k ih =>
    simp only [strRepeat, pipeCount] at ih ⊢
    rw [List.replicate_succ, List.flatten_cons, List.countP_append, ih]
    have h1 : ("| " : String).data.countP (fun c => c = '|') = 1 := by decide
    rw [h1]
    omega

theorem pipeCount_moreRow (stats : Stats) (hk : Bool) :
    pipeCount (moreRowLine stats hk) = (if hk then 4 else 3) + 1 := by
  unfold moreRowLine
  rw [pipeCount_append, pipeCount_append, pipeCount_append, pipeCount_append,
    pipeCount_toString, pipeCount_strRepeat]
  cases hk <;> decide

theorem mem_iff_countP_eq (l : List String) (s : String) :
    s ∈ l ↔ 0 < l.countP (fun x => x == s) := by
  rw [List.countP_pos]
  constructor
  · intro h
    exact ⟨s, h, by simp⟩
  · rintro ⟨a, ha, he⟩
    simp only [beq_iff_eq] at he
    exact he ▸ ha

theorem missSectionLines_eq (stats : Stats) (hpos : 0 < stats.missedCrates.length) :
    missSectionLines stats =
      ["", "<details>",
       "<summary>Cache misses (" ++ toString stats.misses ++ " crates)</summary>", ""] ++
      (if (stats.missedCrates.take 10).any (fun c => c.cache_key != "") then
        ["| Crate | Compile time | Size | Key |",
         "|-------|-------------|------|-----|"]
       else
        ["| Crate | Compile time | Size |",
         "|-------|-------------|------|"]) ++
      (stats.missedCrates.take 10).map
        (missRowLine ((stats.missedCrates.take 10).any fun c => c.cache_key != "")) ++
      (if stats.missedCrates.length > 10 then
        [moreRowLine stats ((stats.missedCrates.take 10).any fun c => c.cache_key != "")]
       else []) ++
      ["", "</details>"] := by
  unfold missSectionLines
  rw [if_pos hpos]

/-! ## Claim C6 -/

/-- **C6 (amended: the truncated cache-key column is included iff one of
the at most 10 displayed misses carries a non-empty key — a key appearing
only beyond the top 10 does not enable the column).**  For stats with a
non-empty miss list, the rendered lines are the metric table followed by
the details section; the details section contains at most the top 10
misses as data rows (exactly `min 10 len`), a trailing "N more" row
exactly when more than 10 misses exist — padded with empty cells to the
same `|`-separator count as the table header — and the `Key` header
variant if and only if one of the displayed misses has a non-empty key. -/
theorem buildStatsMarkdown_details (stats : Stats) (backend duration : String)
    (hne : stats.missedCrates ≠ []) :
    buildStatsLines stats backend duration =
      statsBaseLines stats backend duration ++ missSectionLines stats ∧
    "<details>" ∈ missSectionLines stats ∧
    (missSectionLines stats).countP dataRowP = min 10 stats.missedCrates.length ∧
    (((stats.missedCrates.take 10).any fun c => c.cache_key != "") = true ↔
      "| Crate | Compile time | Size | Key |" ∈ missSectionLines stats) ∧
    (((stats.missedCrates.take 10).any fun c => c.cache_key != "") = false ↔
      "| Crate | Compile time | Size |" ∈ missSectionLines stats) ∧
    (stats.missedCrates.length ≤ 10 → (missSectionLines stats).countP moreRowP = 0) ∧
    (10 < stats.missedCrates.length →
      (missSectionLines stats).countP moreRowP = 1 ∧
      moreRowLine stats ((stats.missedCrates.take 10).any fun c => c.cache_key != "") ∈
        missSectionLines stats ∧
      pipeCount (moreRowLine stats ((stats.missedCrates.take 10).any fun c => c.cache_key != "")) =
        pipeCount (if ((stats.missedCrates.take 10).any fun c => c.cache_key != "")
                   then "| Crate | Compile time | Size | Key |"
                   else "| Crate | Compile time | Size |")) := by
  have hpos : 0 < stats.missedCrates.length := List.length_pos.mpr hne
  have hsec := missSectionLines_eq stats hpos
  have hrowKH : ∀ (hk : Bool) (c : MissedCrate),
      (missRowLine hk c == ("| Crate | Compile time | Size | Key |" : String)) = false :=
    fun hk c => beq_eq_false_iff_ne.mpr
      (str_ne_of_discr dataRowP (dataRowP_missRow hk c) (by decide))
  have hrowNH : ∀ (hk : Bool) (c : MissedCrate),
      (missRowLine hk c == ("| Crate | Compile time | Size |" : String)) = false :=
    fun hk c => beq_eq_false_iff_ne.mpr
      (str_ne_of_discr dataRowP (dataRowP_missRow hk c) (by decide))
  have hsumKH : (("<summary>Cache misses (" ++ toString stats.misses ++ " crates)</summary>"
      : String) == ("| Crate | Compile time | Size | Key |" : String)) = false :=
    beq_eq_false_iff_ne.mpr
      (str_ne_of_discr (fun l => pfxMatch l.data angleHeadPat)
        (angleHead_summary stats.misses) (by decide))
  have hsumNH : (("<summary>Cache misses (" ++ toString stats.misses ++ " crates)</summary>"
      : String) == ("| Crate | Compile time | Size |" : String)) = false :=
    beq_eq_false_iff_ne.mpr
      (str_ne_of_discr (fun l => pfxMatch l.data angleHeadPat)
        (angleHead_summary stats.misses) (by decide))
  have hmoreKH : ∀ hk : Bool,
      (moreRowLine stats hk == ("| Crate | Compile time | Size | Key |" : String)) = false :=
    fun hk => beq_eq_false_iff_ne.mpr
      (str_ne_of_discr moreRowP (moreRowP_moreRow stats hk) (by decide))
  have hmoreNH : ∀ hk : Bool,
      (moreRowLine stats hk == ("| Crate | Compile time | Size |" : String)) = false :=
    fun hk => beq_eq_false_iff_ne.mpr
      (str_ne_of_discr moreRowP (moreRowP_moreRow stats hk) (by decide))
  have hcnt : ∀ (hk : Bool) (l : List MissedCrate),
      (l.map (missRowLine hk)).countP dataRowP = l.length := fun hk l => by
    rw [List.countP_map]
    exact List.countP_eq_length.mpr fun c _ => by
      simp only [Function.comp_apply]
      exact dataRowP_missRow hk c
  have hnotmemKH : ∀ hk : Bool, ("| Crate | Compile time | Size | Key |" : String) ∉
      stats.missedCrates.map (missRowLine hk) := by
    intro hk hm
    rcases List.mem_map.mp hm with ⟨c, -, hc⟩
    exact str_ne_of_discr dataRowP (dataRowP_missRow hk c) (by decide) hc
  have hnotmemNH : ∀ hk : Bool, ("| Crate | Compile time | Size |" : String) ∉
      stats.missedCrates.map (missRowLine hk) := by
    intro hk hm
    rcases List.mem_map.mp hm with ⟨c, -, hc⟩
    exact str_ne_of_discr dataRowP (dataRowP_missRow hk c) (by decide) hc
  have hrowNotMore : ∀ (hk : Bool) (a : String),
      a ∈ List.take 10 (List.map (missRowLine hk) stats.missedCrates) →
      moreRowP a = false := by
    intro hk a ha
    rcases List.mem_map.mp (List.take_subset _ _ ha) with ⟨c, -, hc⟩
    exact hc ▸ moreRowP_missRow hk c
  refine ⟨rfl, ?_, ?_, ?_, ?_, ?_, ?_⟩
  · rw [hsec]
    simp
  · rw [hsec]
    cases hkb : ((stats.missedCrates.take 10).any fun c => c.cache_key != "") <;>
      by_cases h10 : 10 < stats.missedCrates.length <;>
      simp [h10, List.countP_append, List.countP_cons, hcnt, -List.map_take,
        dataRowP_missRow, dataRowP_moreRow, dataRowP_summary stats.misses,
        (by decide : dataRowP "" = false), (by decide : dataRowP "<details>" = false),
        (by decide : dataRowP "</details>" = false),
        (by decide : dataRowP "| Crate | Compile time | Size | Key |" = false),
        (by decide : dataRowP "|-------|-------------|------|-----|" = false),
        (by decide : dataRowP "| Crate | Compile time | Size |" = false),
        (by decide : dataRowP "|-------|-------------|------|" = false),
        List.length_take]
  · rw [hsec]
    cases hkb : ((stats.missedCrates.take 10).any fun c => c.cache_key != "")
    · simp only [Bool.false_eq_true, false_iff, reduceIte]
      rw [mem_iff_countP_eq]
      by_cases h10 : 10 < stats.missedCrates.length <;>
        simp [h10, List.countP_append, List.countP_cons, List.countP_map, Function.comp,
          hrowKH, hmoreKH, hsumKH] <;>
        try exact fun hm => hnotmemKH _ (List.take_subset _ _ hm)
    · simp only [true_iff, reduceIte]
      simp
  · rw [hsec]
    cases hkb : ((stats.missedCrates.take 10).any fun c => c.cache_key != "")
    · simp only [reduceIte]
      simp
    · simp only [Bool.true_eq_false, false_iff, reduceIte]
      rw [mem_iff_countP_eq]
      by_cases h10 : 10 < stats.missedCrates.length <;>
        simp [h10, List.countP_append, List.countP_cons, List.countP_map, Function.comp,
          hrowNH, hmoreNH, hsumNH] <;>
        try exact fun hm => hnotmemNH _ (List.take_subset _ _ hm)
  · intro hle
    rw [hsec]
    have h10 : ¬ 10 < stats.missedCrates.length := by omega
    cases hkb : ((stats.missedCrates.take 10).any fun c => c.cache_key != "") <;>
      simp [h10, List.countP_append, List.countP_cons, List.countP_map, Function.comp,
        moreRowP_missRow, moreRowP_summary stats.misses,
        (by decide : moreRowP "" = false), (by decide : moreRowP "<details>" = false),
        (by decide : moreRowP "</details>" = false),
        (by decide : moreRowP "| Crate | Compile time | Size | Key |" = false),
        (by decide : moreRowP "|-------|-------------|------|-----|" = false),
        (by decide : moreRowP "| Crate | Compile time | Size |" = false),
        (by decide : moreRowP "|-------|-------------|------|" = false)] <;>
      try exact hrowNotMore _
  · intro h10
    refine ⟨?_, ?_, ?_⟩
    · rw [hsec]
      cases hkb : ((stats.missedCrates.take 10).any fun c => c.cache_key != "") <;>
        simp [h10, List.countP_append, List.countP_cons, List.countP_map, Function.comp,
          moreRowP_missRow, moreRowP_summary stats.misses, moreRowP_moreRow,
          (by decide : moreRowP "" = false), (by decide : moreRowP "<details>" = false),
          (by decide : moreRowP "</details>" = false),
          (by decide : moreRowP "| Crate | Compile time | Size | Key |" = false),
          (by decide : moreRowP "|-------|-------------|------|-----|" = false),
          (by decide : moreRowP "| Crate | Compile time | Size |" = false),
          (by decide : moreRowP "|-------|-------------|------|" = false)] <;>
        try exact hrowNotMore _
    · rw [hsec]
      simp [h10]
    · cases hkb : ((stats.missedCrates.take 10).any fun c => c.cache_key != "") <;>
        simp [pipeCount_moreRow, hkb] <;> decide

/-- Witness for C6: one concrete miss renders a details section. -/
theorem buildStatsMarkdown_details_witness :
    "<details>" ∈ missSectionLines (aggregate
      [{ result := "miss", crate_name := "foo", elapsed_ms := some 4200,
         size := some 1048576, cache_key := none }]) :=
  (buildStatsMarkdown_details
    (aggregate
      [{ result := "miss", crate_name := "foo", elapsed_ms := some 4200,
         size := some 1048576, cache_key := none }]) "S3" "10.0" (by decide)).2.1

/-- Eleven miss events; only the cheapest one (sorted last, position 11,
outside the displayed top 10) carries a cache key. -/
def cex11 : List Event :=
  [{ result := "miss", crate_name := "c11", elapsed_ms := some 11, size := some 1,
     cache_key := none },
   { result := "miss", crate_name := "c10", elapsed_ms := some 10, size := some 1,
     cache_key := none },
   { result := "miss", crate_name := "c9", elapsed_ms := some 9, size := some 1,
     cache_key := none },
   { result := "miss", crate_name := "c8", elapsed_ms := some 8, size := some 1,
     cache_key := none },
   { result := "miss", crate_name := "c7", elapsed_ms := some 7, size := some 1,
     cache_key := none },
   { result := "miss", crate_name := "c6", elapsed_ms := some 6, size := some 1,
     cache_key := none },
   { result := "miss", crate_name := "c5", elapsed_ms := some 5, size := some 1,
     cache_key := none },
   { result := "miss", crate_name := "c4", elapsed_ms := some 4, size := some 1,
     cache_key := none },
   { result := "miss", crate_name := "c3", elapsed_ms := some 3, size := some 1,
     cache_key := none },
   { result := "miss", crate_name := "c2", elapsed_ms := some 2, size := some 1,
     cache_key := none },
   { result := "miss", crate_name := "c1", elapsed_ms := some 1, size := some 1,
     cache_key := some "deadbeefdeadbeef" }]

/-- **C6 counterexample.** A miss beyond the displayed top 10 carries a
non-empty cache key, yet the rendered summary uses the key-less table
header and omits the `Key` column: the claim's "if and only if at least
one miss carries a non-empty cache key" fails on the code. -/
theorem buildStatsMarkdown_key_counterexample :
    (∃ c ∈ (aggregate cex11).missedCrates, c.cache_key ≠ "") ∧
    "| Crate | Compile time | Size | Key |" ∉
      buildStatsLines (aggregate cex11) "S3" "10.0" ∧
    "| Crate | Compile time | Size |" ∈
      buildStatsLines (aggregate cex11) "S3" "10.0" := by
  refine ⟨?_, ?_, ?_⟩ <;> decide

/-! ## Claim C9 -/

/-- **C9.** The post step never fails the build: every path of `runPost`
reports `buildFailed = false`.  A publish failure whose message marks an
authorization problem ("Resource not accessible") is logged as an
informational skip and the run continues to the summary write; any other
publish failure is logged as a warning; an error thrown before the
comment block or during the summary write is caught by the outer handler
and logged as the `kache post step failed` warning. -/
theorem runPost_never_fails (preErr : Option String) (statsPresent : Bool)
    (publishErr summaryErr : Option String) :
    (runPost preErr statsPresent publishErr summaryErr).buildFailed = false ∧
    (∀ msg, preErr = none → statsPresent = true → publishErr = some msg →
      containsSub msg.data ("Resource not accessible" : String).data = true →
      LogEntry.info "Skipping PR comment — token lacks pull-requests: write permission" ∈
        (runPost preErr statsPresent publishErr summaryErr).logs ∧
      (summaryErr = none →
        (runPost preErr statsPresent publishErr summaryErr).summaryWritten = true)) ∧
    (∀ msg, preErr = none → statsPresent = true → publishErr = some msg →
      containsSub msg.data ("Resource not accessible" : String).data = false →
      LogEntry.warning ("Failed to post PR comment: " ++ msg) ∈
        (runPost preErr statsPresent publishErr summaryErr).logs) ∧
    (∀ msg, preErr = some msg →
      (runPost preErr statsPresent publishErr summaryErr).logs =
        [.warning ("kache post step failed: " ++ msg)]) ∧
    (∀ msg, preErr = none → summaryErr = some msg →
      LogEntry.warning ("kache post step failed: " ++ msg) ∈
        (runPost preErr statsPresent publishErr summaryErr).logs) := by
  refine ⟨?_, ?_, ?_, ?_, ?_⟩
  · cases preErr <;> cases summaryErr <;> simp [runPost]
  · intro msg h1 h2 h3 h4
    subst h1
    subst h2
    subst h3
    cases summaryErr <;> simp [runPost, publishCatch, h4]
  · intro msg h1 h2 h3 h4
    subst h1
    subst h2
    subst h3
    cases summaryErr <;> simp [runPost, publishCatch, h4]
  · intro msg h1
    subst h1
    simp [runPost]
  · intro msg h1 h2
    subst h1
    subst h2
    cases statsPresent <;> simp [runPost]

/-- Witness for C9: an authorization failure is downgraded to an info skip
and the summary is still written. -/
theorem runPost_never_fails_witness :
    LogEntry.info "Skipping PR comment — token lacks pull-requests: write permission" ∈
      (runPost none true (some "Resource not accessible by integration") none).logs ∧
    (runPost none true (some "Resource not accessible by integration") none).summaryWritten
      = true :=
  have h := (runPost_never_fails none true
    (some "Resource not accessible by integration") none).2.1
    "Resource not accessible by integration" rfl rfl rfl (by decide)
  ⟨h.1, h.2 rfl⟩

/-! ## Version sensitivity of the cache key (the provable half of the
byte-sensitivity claim: the `lockHash` half is the collision resistance of
the truncated SHA-256 and is neither provable nor refutable here) -/

theorem buildCacheKey_version_inj (rawPrefix platform : String)
    (readFile : String → List Nat) (paths : List String) (v₁ v₂ : String)
    (h1 : v₁ ≠ "") (h2 : v₂ ≠ "") (hne : v₁ ≠ v₂) :
    (buildCacheKey rawPrefix v₁ platform readFile paths).key ≠
      (buildCacheKey rawPrefix v₂ platform readFile paths).key ∧
    (buildCacheKey rawPrefix v₁ platform readFile paths).restoreKeys ≠
      (buildCacheKey rawPrefix v₂ platform readFile paths).restoreKeys := by
  have core : ∀ pfxD rest : List Char,
      pfxD ++ (("-" : String).data ++ (v₁.data ++ (("-" : String).data ++ rest))) =
        pfxD ++ (("-" : String).data ++ (v₂.data ++ (("-" : String).data ++ rest))) →
      v₁ = v₂ := by
    intro pfxD rest h
    have h2 := List.append_cancel_left (List.append_cancel_left h)
    have hlen := congrArg List.length h2
    simp only [List.length_append] at hlen
    exact string_data_inj (List.append_inj h2 (by omega)).1
  constructor
  · simp only [buildCacheKey, if_neg h1, if_neg h2]
    intro heq
    apply hne
    have hd := congrArg String.data heq
    simp only [String.data_append, List.append_assoc] at hd
    exact core _ _ hd
  · simp only [buildCacheKey, if_neg h1, if_neg h2]
    intro heq
    apply hne
    simp only [List.cons.injEq, and_true] at heq
    have hd := congrArg String.data heq
    simp only [String.data_append, List.append_assoc] at hd
    exact core _ _ hd
